import Mathlib

/-!
Verification of the AskDoc document-management backend (`server.js`).

The development shallowly embeds the data model (the `folders` and `files`
SQLite tables) and the route handlers that the specification's testable
properties concern:

* `GET /api/folders/:tabType` — flat folder query ordered by
  `parent_id ASC, name ASC`, then the in-process `buildTree` conversion;
* `DELETE /api/folders/:id` — the cascade deleter: recursive-CTE closure
  query, best-effort blob unlink phase, then three DELETE statements;
* `DELETE /api/files/:id` — single file delete;
* `POST /api/folders` — folder creation;
* `GET /api/search` — `LIKE '%term%'` search capped at 50 rows.

SQLite specifics honoured by the embedding: the `sqlite3` driver never runs
`PRAGMA foreign_keys = ON`, so the schema's `ON DELETE CASCADE` clauses are
inert and only the statements the handler issues mutate rows; `x IN (list)`
is false when `x` is NULL; `LIKE` is case-insensitive for ASCII letters only
and treats `%`/`_` in the spliced search term as wildcards; each single SQL
statement either applies entirely or fails applying nothing, and no
transaction spans the three DELETE statements.  Database statement failure
and filesystem unlink failure are modelled by explicit failure oracles;
`fun _ => false` is the happy path.
-/

/-- The `tab_type` column: CHECK constraint allows exactly 'my' and 'public'
(the spec's namespaces `mine` and `shared`). -/
inductive Tab where
  | my
  | public
deriving DecidableEq

/-- A row of the `folders` table. -/
structure Folder where
  id : Nat
  name : String
  parent_id : Option Nat
  tab_type : Tab
  created_at : Nat
deriving DecidableEq

/-- A row of the `files` table. -/
structure FileRec where
  id : Nat
  name : String
  original_name : String
  file_path : String
  file_size : Nat
  mime_type : String
  folder_id : Option Nat
  tab_type : Tab
  created_at : Nat
deriving DecidableEq

/-- The two tables of `askdoc.db`. -/
structure Database where
  folders : List Folder
  files : List FileRec
deriving DecidableEq

/-! ### Tree Builder (`GET /api/folders/:tabType`, server.js lines 118-157) -/

/-- A node of the nested forest produced by `buildTree`: the folder record
spread into the node (`{...item, children}`) together with its children. -/
inductive FolderTree where
  | node (rec : Folder) (children : List FolderTree)

/-- The source `buildTree(items, parentId)` recurses on the full `items`
list, selecting `items.filter(item => item.parent_id === parentId)` at each
level; it terminates on exactly the inputs whose parent chains are acyclic.
The embedding adds an explicit recursion-depth budget `fuel`; the top-level
call supplies `items.length + 1`, which bounds the recursion depth of every
run of the source that terminates. -/
def buildTree (items : List Folder) : Nat → Option Nat → List FolderTree
  | 0, _ => []
  | fuel + 1, parentId =>
    (items.filter (fun i => decide (i.parent_id = parentId))).map
      (fun i => FolderTree.node i (buildTree items fuel (some i.id)))

/-- Top-level tree construction, `buildTree(rows)` in the source. -/
def buildTreeTop (items : List Folder) : List FolderTree :=
  buildTree items (items.length + 1) none

mutual
/-- Records of a tree, root first (used to state the round-trip property). -/
def flattenTree : FolderTree → List Folder
  | .node r cs => r :: flattenForest cs
/-- Records of a forest, in preorder. -/
def flattenForest : List FolderTree → List Folder
  | [] => []
  | t :: ts => flattenTree t ++ flattenForest ts
end

/-- Record stored at the root of a tree. -/
def rootRec : FolderTree → Folder
  | .node r _ => r

mutual
/-- Every level of the tree below the root lists its children in
name-ascending order. -/
def treeSorted : FolderTree → Prop
  | .node _ cs => forestSorted cs
/-- The roots of the forest are in name-ascending order and every tree of
the forest is `treeSorted`. -/
def forestSorted : List FolderTree → Prop
  | [] => True
  | t :: ts =>
    treeSorted t ∧ (∀ u ∈ ts, (rootRec t).name ≤ (rootRec u).name) ∧ forestSorted ts
end

/-- SQL sort key for `ORDER BY parent_id ASC`: `NULL` orders before every
integer in SQLite, so `none` maps below every `some`. -/
def parentKey : Option Nat → Nat
  | none => 0
  | some p => p + 1

/-- Row order produced by `ORDER BY parent_id ASC, name ASC`. -/
def folderOrder (a b : Folder) : Prop :=
  parentKey a.parent_id < parentKey b.parent_id ∨
    (parentKey a.parent_id = parentKey b.parent_id ∧ a.name ≤ b.name)

instance : DecidableRel folderOrder := fun _ _ =>
  inferInstanceAs (Decidable (_ ∨ _))

instance : IsTotal Folder folderOrder where
  total a b := by
    rcases Nat.lt_trichotomy (parentKey a.parent_id) (parentKey b.parent_id) with h | h | h
    · exact Or.inl (Or.inl h)
    · rcases le_total a.name b.name with hn | hn
      · exact Or.inl (Or.inr ⟨h, hn⟩)
      · exact Or.inr (Or.inr ⟨h.symm, hn⟩)
    · exact Or.inr (Or.inl h)

instance : IsTrans Folder folderOrder where
  trans a b c hab hbc := by
    rcases hab with h1 | ⟨h1, n1⟩ <;> rcases hbc with h2 | ⟨h2, n2⟩
    · exact Or.inl (h1.trans h2)
    · exact Or.inl (h2 ▸ h1)
    · exact Or.inl (h1 ▸ h2)
    · exact Or.inr ⟨h1.trans h2, n1.trans n2⟩

/-- Rows returned by the folder-list query
`SELECT ... FROM folders WHERE tab_type = ? ORDER BY parent_id ASC, name ASC`. -/
def listFolderRows (db : Database) (tabType : Tab) : List Folder :=
  (db.folders.filter (fun fo => decide (fo.tab_type = tabType))).insertionSort folderOrder

/-- The forest the route `GET /api/folders/:tabType` responds with. -/
def listFoldersTree (db : Database) (tabType : Tab) : List FolderTree :=
  buildTreeTop (listFolderRows db tabType)

/-! ### Cascade deleter (`DELETE /api/folders/:id`, server.js lines 1411-1516) -/

/-- One step of the recursive CTE `folder_tree`: ids of folders whose
`parent_id` joins a row already in the working table. -/
def childIds (folders : List Folder) (frontier : List Nat) : List Nat :=
  (folders.filter (fun fo => decide (fo.parent_id ∈ frontier.map some))).map (·.id)

/-- Levels produced by the recursive part of the CTE.  The CTE iterates
until no new row appears; on acyclic data every level beyond
`folders.length` is empty, so that fuel reproduces the query. -/
def cteLevels (folders : List Folder) : Nat → List Nat → List Nat
  | 0, _ => []
  | fuel + 1, frontier =>
    let next := childIds folders frontier
    next ++ cteLevels folders fuel next

/-- The closure query used for the file DELETE (and the initial SELECT):
base case `SELECT id FROM folders WHERE id = ?`, then the recursive join.
Contains the target (when present) and every descendant. -/
def folderTreeClosure (folders : List Folder) (target : Nat) : List Nat :=
  let base := (folders.filter (fun fo => decide (fo.id = target))).map (·.id)
  base ++ cteLevels folders folders.length base

/-- The closure used by `deleteSubfoldersQuery`, embedded verbatim: its base
case is `SELECT id FROM folders WHERE id = ? AND id != ?` with *both*
parameters bound to the target id (`db.run(deleteSubfoldersQuery, [id, id])`),
so the base case — and with it the whole closure — is empty. -/
def subfolderTreeClosure (folders : List Folder) (target : Nat) : List Nat :=
  let base :=
    (folders.filter (fun fo => decide (fo.id = target ∧ fo.id ≠ target))).map (·.id)
  base ++ cteLevels folders folders.length base

/-- Outcome of a delete route: HTTP-level error if any (`none` = 200
response), filesystem contents, console log of the blob phase, database
state, and the `deletedRows` field of the JSON response (`this.changes` of
the last DELETE; 0 on error responses). -/
structure RouteResult where
  error : Option String
  fsSet : List String
  log : List String
  db : Database
  deletedRows : Nat
deriving DecidableEq

/-- Blob phase of the cascade (lines 1443-1454): for each collected file
row, `if (fs.existsSync(path))` attempt `fs.unlinkSync(path)` inside
`try/catch` — a missing blob is skipped with no log line, a throwing unlink
is caught and logged, and in every case processing continues.  Returns the
filesystem contents and the console log, in order. -/
def blobPhase (unlinkFail : String → Bool) :
    List String → List FileRec → List String × List String
  | fsSet, [] => (fsSet, [])
  | fsSet, fi :: rest =>
    if fi.file_path ∈ fsSet then
      if unlinkFail fi.file_path then
        let r := blobPhase unlinkFail fsSet rest
        (r.1, ("unlink-error:" ++ fi.file_path) :: r.2)
      else
        let r := blobPhase unlinkFail (fsSet.erase fi.file_path) rest
        (r.1, ("unlinked:" ++ fi.file_path) :: r.2)
    else
      blobPhase unlinkFail fsSet rest

/-- File rows the initial `getSubItemsQuery` SELECT collects for the blob
phase: files whose `folder_id` lies in the closure, then the handler's
`items.filter(item => item.type === 'file' && item.file_path)` truthiness
check on the path. -/
def collectedFiles (db : Database) (target : Nat) : List FileRec :=
  let closure := folderTreeClosure db.folders target
  (db.files.filter (fun fi => decide (fi.folder_id ∈ closure.map some))).filter
    (fun fi => decide (fi.file_path ≠ ""))

/-- The handler of `DELETE /api/folders/:id`.  `dbFail k` says whether the
k-th database statement errors (0 = the closure SELECT, 1 = the file
DELETE, 2 = the subfolder DELETE, 3 = the target DELETE); a statement that
errors applies no change, the handler answers 500 and runs nothing further.
`unlinkFail` says whether `fs.unlinkSync` throws on a path. -/
def deleteFolderRoute (dbFail : Nat → Bool) (unlinkFail : String → Bool)
    (fsSet : List String) (db : Database) (target : Nat) : RouteResult :=
  if dbFail 0 then ⟨some "subitem query error (500)", fsSet, [], db, 0⟩ else
  let closure := folderTreeClosure db.folders target
  let blob := blobPhase unlinkFail fsSet (collectedFiles db target)
  if dbFail 1 then ⟨some "file delete error (500)", blob.1, blob.2, db, 0⟩ else
  let files' := db.files.filter (fun fi => decide (fi.folder_id ∉ closure.map some))
  let db1 : Database := ⟨db.folders, files'⟩
  if dbFail 2 then ⟨some "subfolder delete error (500)", blob.1, blob.2, db1, 0⟩ else
  let folders1 := db.folders.filter
    (fun fo => decide (fo.id ∉ subfolderTreeClosure db.folders target))
  let db2 : Database := ⟨folders1, files'⟩
  if dbFail 3 then ⟨some "target delete error (500)", blob.1, blob.2, db2, 0⟩ else
  let deletedRows := (folders1.filter (fun fo => decide (fo.id = target))).length
  let folders2 := folders1.filter (fun fo => decide (fo.id ≠ target))
  ⟨none, blob.1, blob.2, ⟨folders2, files'⟩, deletedRows⟩

/-- Happy-path cascade delete: no statement errors, no unlink throws. -/
def cascadeDelete (fsSet : List String) (db : Database) (target : Nat) : RouteResult :=
  deleteFolderRoute (fun _ => false) (fun _ => false) fsSet db target

/-! ### Single file delete (`DELETE /api/files/:id`, server.js lines 1519-1570) -/

/-- The handler of `DELETE /api/files/:id`: SELECT the row; answer 404 when
absent; otherwise best-effort-unlink the blob (nonempty `file_path` that
exists on disk, `try/catch` around `unlinkSync`) and DELETE the row. -/
def deleteFileRoute (unlinkFail : String → Bool) (fsSet : List String)
    (db : Database) (target : Nat) : RouteResult :=
  match db.files.find? (fun fi => decide (fi.id = target)) with
  | none => ⟨some "file not found (404)", fsSet, [], db, 0⟩
  | some row =>
    let blob :=
      if row.file_path ≠ "" ∧ row.file_path ∈ fsSet then
        if unlinkFail row.file_path then (fsSet, ["unlink-error:" ++ row.file_path])
        else (fsSet.erase row.file_path, ["unlinked:" ++ row.file_path])
      else (fsSet, [])
    let files' := db.files.filter (fun fi => decide (fi.id ≠ target))
    let deletedRows := (db.files.filter (fun fi => decide (fi.id = target))).length
    ⟨none, blob.1, blob.2, ⟨db.folders, files'⟩, deletedRows⟩

/-! ### Folder creation (`POST /api/folders`, server.js lines 210-250) -/

/-- Outcome of `POST /api/folders`. -/
structure CreateFolderResult where
  error : Option String
  db : Database
  created : Option Folder
deriving DecidableEq

/-- The handler of `POST /api/folders` after request parsing: a missing
name or tab type answers 400 (modelled as `name = ""`; the tab type is an
enum here, and a non-numeric `parentId` string is rejected by the
`parseInt`/`isNaN` guard before this point, so `parentId` arrives as an
already-parsed `Option Nat`).  The handler then runs the INSERT directly —
it never looks up `parentId` in the folders table, and with
`PRAGMA foreign_keys` off the schema's FOREIGN KEY clause checks nothing.
AUTOINCREMENT is modelled as one more than the largest existing id. -/
def createFolder (db : Database) (name : String) (parentId : Option Nat)
    (tabType : Tab) (now : Nat) : CreateFolderResult :=
  if name = "" then ⟨some "validation error (400)", db, none⟩
  else
    let newId := (db.folders.map (·.id)).foldr max 0 + 1
    let row : Folder := ⟨newId, name, parentId, tabType, now⟩
    ⟨none, ⟨db.folders ++ [row], db.files⟩, some row⟩

/-! ### Search (`GET /api/search`, server.js lines 1573-1600) -/

/-- SQLite `LIKE` on character lists: `%` matches any sequence, `_` any one
character, letters compare ASCII-case-insensitively (SQLite folds only
A-Z; `Char.toLower` likewise only changes A-Z), and no ESCAPE clause is in
force.  The `%` case is phrased as "some suffix matches the rest". -/
def likeM : List Char → List Char → Bool
  | [], s => s.isEmpty
  | c :: p, s =>
    if c = '%' then s.tails.any (fun s' => likeM p s')
    else if c = '_' then
      match s with
      | [] => false
      | _ :: s' => likeM p s'
    else
      match s with
      | [] => false
      | a :: s' => (c.toLower == a.toLower) && likeM p s'

/-- The pattern the handler builds: `` `%${query}%` ``. -/
def likePattern (term : String) : List Char :=
  '%' :: (term.data ++ ['%'])

/-- `ORDER BY created_at DESC`. -/
def newerFirst (a b : FileRec) : Prop := b.created_at ≤ a.created_at

instance : DecidableRel newerFirst := fun _ _ =>
  inferInstanceAs (Decidable (_ ≤ _))

instance : IsTotal FileRec newerFirst :=
  ⟨fun a b => Nat.le_total b.created_at a.created_at⟩

instance : IsTrans FileRec newerFirst :=
  ⟨fun _ _ _ h1 h2 => Nat.le_trans h2 h1⟩

/-- The handler of `GET /api/search`:
`WHERE tab_type = ? AND (original_name LIKE ? OR name LIKE ?)` with the
pattern `%term%`, `ORDER BY created_at DESC`, `LIMIT 50`. -/
def searchFiles (db : Database) (tabType : Tab) (term : String) : List FileRec :=
  let pat := likePattern term
  let hits := db.files.filter (fun fi =>
    decide (fi.tab_type = tabType) &&
      (likeM pat fi.original_name.data || likeM pat fi.name.data))
  (hits.insertionSort newerFirst).take 50

/-- Case-insensitive substring containment, the spec's reading of the
search: the folded term occurs as an infix of the folded name. -/
def containsCI (term s : String) : Prop :=
  (term.data.map Char.toLower) <:+: (s.data.map Char.toLower)

/-! ### General helper lemmas -/

theorem childIds_nil (folders : List Folder) : childIds folders [] = [] := by
  simp [childIds]

theorem cteLevels_nil (folders : List Folder) (fuel : Nat) :
    cteLevels folders fuel [] = [] := by
  induction fuel with
  | zero => rfl
  | succ f ih => simp [cteLevels, childIds_nil, ih]

theorem subfolderTreeClosure_eq_nil (folders : List Folder) (target : Nat) :
    subfolderTreeClosure folders target = [] := by
  have hbase :
      (folders.filter (fun fo => decide (fo.id = target ∧ fo.id ≠ target))) = [] := by
    apply List.filter_eq_nil_iff.mpr
    intro a _
    simp
  simp [subfolderTreeClosure, hbase, cteLevels_nil]

theorem folderTreeClosure_eq_nil (folders : List Folder) (target : Nat)
    (h : target ∉ folders.map (·.id)) : folderTreeClosure folders target = [] := by
  have hbase : (folders.filter (fun fo => decide (fo.id = target))) = [] := by
    apply List.filter_eq_nil_iff.mpr
    intro a ha hdec
    exact h (List.mem_map.mpr ⟨a, ha, by simpa using hdec⟩)
  simp [folderTreeClosure, hbase, cteLevels_nil]

theorem filter_all_eq_length_le_one {α : Type} (l : List α) (f : α → Nat) (c : Nat)
    (hnodup : (l.map f).Nodup) (hall : ∀ x ∈ l, f x = c) : l.length ≤ 1 := by
  match l with
  | [] => simp
  | [x] => simp
  | x :: y :: rest =>
    exfalso
    have hx : f x = c := hall x (by simp)
    have hy : f y = c := hall y (by simp)
    have : f x ≠ f y := by
      have := hnodup
      simp only [List.map_cons, List.nodup_cons, List.mem_cons, List.mem_map] at this
      exact fun hxy => this.1 (Or.inl hxy)
    exact this (hx.trans hy.symm)

/-! ### C5: deleting a nonexistent folder id is a no-op -/

theorem cascade_nonexistent_core (dbv : Database) (fsSet : List String) (target : Nat)
    (h : target ∉ dbv.folders.map (·.id)) :
    cascadeDelete fsSet dbv target = ⟨none, fsSet, [], dbv, 0⟩ := by
  have hclosure := folderTreeClosure_eq_nil dbv.folders target h
  have hsub := subfolderTreeClosure_eq_nil dbv.folders target
  have hcollected : collectedFiles dbv target = [] := by
    rw [collectedFiles]
    rw [hclosure]
    simp
  have hfiles : dbv.files.filter
      (fun fi => decide (fi.folder_id ∉ (folderTreeClosure dbv.folders target).map some))
        = dbv.files := by
    rw [hclosure]
    simp
  have hfolders1 : dbv.folders.filter
      (fun fo => decide (fo.id ∉ subfolderTreeClosure dbv.folders target)) = dbv.folders := by
    rw [hsub]
    simp
  have hcount : (dbv.folders.filter (fun fo => decide (fo.id = target))).length = 0 := by
    rw [List.length_eq_zero]
    apply List.filter_eq_nil_iff.mpr
    intro a ha hdec
    exact h (List.mem_map.mpr ⟨a, ha, by simpa using hdec⟩)
  have hkeep : dbv.folders.filter (fun fo => decide (fo.id ≠ target)) = dbv.folders := by
    apply List.filter_eq_self.mpr
    intro a ha
    simp only [decide_eq_true_eq]
    intro heq
    exact h (List.mem_map.mpr ⟨a, ha, heq⟩)
  simp only [cascadeDelete, deleteFolderRoute, if_false, Bool.false_eq_true]
  rw [hcollected]
  simp only [blobPhase]
  rw [hfiles, hfolders1, hcount, hkeep]

/-- C5: for a folder id absent from the folder table, the cascade delete
route succeeds (HTTP 200, no error), reports `deletedRows = 0`, touches no
blob, and leaves both the folder table and the file table unchanged. -/
theorem c5_delete_nonexistent_folder_noop (dbv : Database) (fsSet : List String)
    (target : Nat) (h : target ∉ dbv.folders.map (·.id)) :
    (cascadeDelete fsSet dbv target).error = none ∧
      (cascadeDelete fsSet dbv target).deletedRows = 0 ∧
      (cascadeDelete fsSet dbv target).db = dbv ∧
      (cascadeDelete fsSet dbv target).fsSet = fsSet := by
  rw [cascade_nonexistent_core dbv fsSet target h]
  exact ⟨rfl, rfl, rfl, rfl⟩

theorem c5_delete_nonexistent_folder_noop_witness :
    (7 ∉ (Database.mk [⟨1, "root", none, Tab.my, 0⟩] []).folders.map (·.id)) ∧
      (cascadeDelete ["p"] (Database.mk [⟨1, "root", none, Tab.my, 0⟩] []) 7).error = none ∧
      (cascadeDelete ["p"] (Database.mk [⟨1, "root", none, Tab.my, 0⟩] []) 7).deletedRows = 0 ∧
      (cascadeDelete ["p"] (Database.mk [⟨1, "root", none, Tab.my, 0⟩] []) 7).db
        = Database.mk [⟨1, "root", none, Tab.my, 0⟩] [] ∧
      (cascadeDelete ["p"] (Database.mk [⟨1, "root", none, Tab.my, 0⟩] []) 7).fsSet = ["p"] :=
  ⟨by decide, c5_delete_nonexistent_folder_noop _ _ _ (by decide)⟩

/-! ### C1: cascade delete does not remove descendant folder rows -/

/-- C1: failing-input evaluation.  Folder table `{1: root(parent null),
2: child(parent 1)}`, empty file table, no failures anywhere.  The claim
(and §8 of the spec) requires `DELETE /api/folders/1` to leave the folder
table empty; the code's `deleteSubfoldersQuery` base case
`WHERE id = ? AND id != ?` is bound to `[id, id]` and selects nothing, and
`PRAGMA foreign_keys` is never enabled, so the descendant folder 2 survives
with a dangling `parent_id = 1`.  The route still answers 200. -/
theorem c1_failing_input_eval :
    (cascadeDelete [] (Database.mk
        [⟨1, "root", none, Tab.my, 0⟩, ⟨2, "child", some 1, Tab.my, 0⟩] []) 1).error
      = none ∧
    (cascadeDelete [] (Database.mk
        [⟨1, "root", none, Tab.my, 0⟩, ⟨2, "child", some 1, Tab.my, 0⟩] []) 1).db.folders
      = [⟨2, "child", some 1, Tab.my, 0⟩] := by
  constructor <;> rfl

/-! ### C10: deletedRows counts only the final single-row DELETE -/

theorem cascade_deletedRows_eq (fsSet : List String) (dbv : Database) (target : Nat) :
    (cascadeDelete fsSet dbv target).deletedRows
      = ((dbv.folders.filter
            (fun fo => decide (fo.id ∉ subfolderTreeClosure dbv.folders target))).filter
          (fun fo => decide (fo.id = target))).length := rfl

/-- C10: the `deletedRows` field of the cascade delete response is
`this.changes` of the final `DELETE FROM folders WHERE id = ?` alone: with
unique folder ids it is at most 1, it is 0 when the target id does not
exist, and it does not depend on the file table at all — the response
carries no file count. -/
theorem c10_deletedRows_only_target (fsSet : List String) (dbv : Database) (target : Nat)
    (hnodup : (dbv.folders.map (·.id)).Nodup) :
    (cascadeDelete fsSet dbv target).deletedRows ≤ 1 ∧
      (target ∉ dbv.folders.map (·.id) →
        (cascadeDelete fsSet dbv target).deletedRows = 0) ∧
      (∀ files' : List FileRec,
        (cascadeDelete fsSet (Database.mk dbv.folders files') target).deletedRows
          = (cascadeDelete fsSet dbv target).deletedRows) := by
  refine ⟨?_, ?_, ?_⟩
  · rw [cascade_deletedRows_eq]
    apply filter_all_eq_length_le_one _ (·.id) target
    · exact ((List.filter_sublist _).trans (List.filter_sublist _)).map _ |>.nodup hnodup
    · intro x hx
      simpa using (List.of_mem_filter hx)
  · intro h
    have := cascade_nonexistent_core dbv fsSet target h
    rw [this]
  · intro files'
    rfl

theorem c10_deletedRows_only_target_witness :
    ((Database.mk [⟨1, "root", none, Tab.my, 0⟩, ⟨2, "child", some 1, Tab.my, 0⟩]
        []).folders.map (·.id)).Nodup ∧
      (cascadeDelete [] (Database.mk
          [⟨1, "root", none, Tab.my, 0⟩, ⟨2, "child", some 1, Tab.my, 0⟩] []) 1).deletedRows
        ≤ 1 :=
  ⟨by decide,
    (c10_deletedRows_only_target [] (Database.mk
      [⟨1, "root", none, Tab.my, 0⟩, ⟨2, "child", some 1, Tab.my, 0⟩] []) 1 (by decide)).1⟩

/-! ### C4: single file delete of an absent id answers 404, not ok -/

/-- C4 counterexample: with an empty file table, `DELETE /api/files/1`
answers 404 ("파일을 찾을 수 없습니다") instead of succeeding as a no-op,
refuting the claim that `deleteFile` of an absent id returns ok. -/
theorem c4_counterexample_absent_id_404 :
    (deleteFileRoute (fun _ => false) [] (Database.mk [] []) 1).error
      = some "file not found (404)" := rfl

/-- C4 amended: for an id absent from the file table, `DELETE /api/files/:id`
fails with a 404 NotFoundError (it is not an ok no-op), and it does leave
both tables and the filesystem unchanged. -/
theorem c4_delete_absent_file_404 (unlinkFail : String → Bool) (fsSet : List String)
    (dbv : Database) (target : Nat) (h : target ∉ dbv.files.map (·.id)) :
    deleteFileRoute unlinkFail fsSet dbv target
      = ⟨some "file not found (404)", fsSet, [], dbv, 0⟩ := by
  have hfind : dbv.files.find? (fun fi => decide (fi.id = target)) = none := by
    apply List.find?_eq_none.mpr
    intro x hx hdec
    exact h (List.mem_map.mpr ⟨x, hx, by simpa using hdec⟩)
  rw [deleteFileRoute, hfind]

theorem c4_delete_absent_file_404_witness :
    (3 ∉ (Database.mk [] [⟨1, "a", "a", "", 0, "", none, Tab.my, 0⟩]).files.map (·.id)) ∧
      deleteFileRoute (fun _ => false) ["q"]
          (Database.mk [] [⟨1, "a", "a", "", 0, "", none, Tab.my, 0⟩]) 3
        = ⟨some "file not found (404)", ["q"],
            [], Database.mk [] [⟨1, "a", "a", "", 0, "", none, Tab.my, 0⟩], 0⟩ :=
  ⟨by decide, c4_delete_absent_file_404 _ _ _ _ (by decide)⟩

/-! ### C3: createFolder does not validate parentId -/

/-- C3 counterexample: with an empty folder table (so no folder 999 exists
in any namespace), `POST /api/folders` with `parentId = 999` succeeds and
inserts the row with the dangling `parent_id`, refuting the claim that an
unresolvable `parentId` fails with `NotFoundError` and creates nothing. -/
theorem c3_counterexample_dangling_parent_accepted :
    createFolder (Database.mk [] []) "x" (some 999) Tab.my 0
      = ⟨none, Database.mk [⟨1, "x", some 999, Tab.my, 0⟩] [],
          some ⟨1, "x", some 999, Tab.my, 0⟩⟩ := rfl

/-- C3 amended: the handler never looks `parentId` up — neither existence
nor namespace is checked.  For any non-empty name it answers 200 and appends
the folder row with exactly the supplied `parent_id`, whether or not that id
exists (the 400 ValidationError path is only for a missing name/tab type or
a non-numeric `parentId` string). -/
theorem c3_createFolder_skips_parent_check (dbv : Database) (name : String)
    (parentId : Option Nat) (tabType : Tab) (now : Nat) (h : name ≠ "") :
    createFolder dbv name parentId tabType now
      = ⟨none,
          Database.mk
            (dbv.folders ++
              [⟨(dbv.folders.map (·.id)).foldr max 0 + 1, name, parentId, tabType, now⟩])
            dbv.files,
          some ⟨(dbv.folders.map (·.id)).foldr max 0 + 1, name, parentId, tabType, now⟩⟩ := by
  rw [createFolder, if_neg h]

theorem c3_createFolder_skips_parent_check_witness :
    ("y" ≠ "") ∧
      createFolder (Database.mk [⟨1, "a", none, Tab.public, 0⟩] []) "y" (some 1) Tab.my 5
        = ⟨none,
            Database.mk [⟨1, "a", none, Tab.public, 0⟩, ⟨2, "y", some 1, Tab.my, 5⟩] [],
            some ⟨2, "y", some 1, Tab.my, 5⟩⟩ :=
  ⟨by decide, c3_createFolder_skips_parent_check _ _ _ _ _ (by decide)⟩

/-! ### C2: the database phase of the cascade is not atomic -/

/-- C2 counterexample: folder 1 owns file 10; every statement succeeds
except the final `DELETE FROM folders WHERE id = ?`.  The route answers 500
as the claim requires, but the file row deleted by the earlier statement is
not restored: the resulting database differs from the pre-operation one,
refuting accept-all-or-reject-all. -/
theorem c2_counterexample_partial_delete_persists :
    ((deleteFolderRoute (fun k => decide (k = 3)) (fun _ => false) []
        (Database.mk [⟨1, "root", none, Tab.my, 0⟩]
          [⟨10, "a.txt", "a.txt", "", 1, "pdf", some 1, Tab.my, 0⟩]) 1).error
      = some "target delete error (500)") ∧
      (deleteFolderRoute (fun k => decide (k = 3)) (fun _ => false) []
          (Database.mk [⟨1, "root", none, Tab.my, 0⟩]
            [⟨10, "a.txt", "a.txt", "", 1, "pdf", some 1, Tab.my, 0⟩]) 1).db
        ≠ Database.mk [⟨1, "root", none, Tab.my, 0⟩]
            [⟨10, "a.txt", "a.txt", "", 1, "pdf", some 1, Tab.my, 0⟩] := by
  constructor
  · rfl
  · decide

/-- C2 amended: any database-statement failure makes the route answer 500
and stops all later statements, and a failing statement itself applies no
change — but changes already applied by earlier statements persist, so the
database phase is not atomic: a failure of statement 2 (subfolder DELETE) or
3 (target DELETE) leaves the file rows of the closure already deleted. -/
theorem c2_database_phase_not_atomic (dbFail : Nat → Bool) (unlinkFail : String → Bool)
    (fsSet : List String) (dbv : Database) (target : Nat) :
    ((deleteFolderRoute dbFail unlinkFail fsSet dbv target).error.isSome
        = (dbFail 0 || dbFail 1 || dbFail 2 || dbFail 3)) ∧
      (dbFail 0 = true → (deleteFolderRoute dbFail unlinkFail fsSet dbv target).db = dbv) ∧
      (dbFail 0 = false → dbFail 1 = true →
        (deleteFolderRoute dbFail unlinkFail fsSet dbv target).db = dbv) ∧
      (dbFail 0 = false → dbFail 1 = false → dbFail 2 = true →
        (deleteFolderRoute dbFail unlinkFail fsSet dbv target).db
          = Database.mk dbv.folders
              (dbv.files.filter (fun fi =>
                decide (fi.folder_id ∉ (folderTreeClosure dbv.folders target).map some)))) ∧
      (dbFail 0 = false → dbFail 1 = false → dbFail 2 = false → dbFail 3 = true →
        (deleteFolderRoute dbFail unlinkFail fsSet dbv target).db
          = Database.mk
              (dbv.folders.filter (fun fo =>
                decide (fo.id ∉ subfolderTreeClosure dbv.folders target)))
              (dbv.files.filter (fun fi =>
                decide (fi.folder_id ∉ (folderTreeClosure dbv.folders target).map some)))) := by
  cases h0 : dbFail 0 <;> cases h1 : dbFail 1 <;> cases h2 : dbFail 2 <;>
      cases h3 : dbFail 3 <;>
    simp [deleteFolderRoute, h0, h1, h2, h3]

theorem c2_database_phase_not_atomic_witness :
    (deleteFolderRoute (fun k => decide (k = 3)) (fun _ => false) []
        (Database.mk [⟨1, "root", none, Tab.my, 0⟩]
          [⟨10, "a.txt", "a.txt", "", 1, "pdf", some 1, Tab.my, 0⟩]) 1).error.isSome
      = ((fun k => decide (k = 3)) 0 || (fun k => decide (k = 3)) 1 ||
          (fun k => decide (k = 3)) 2 || (fun k => decide (k = 3)) 3) :=
  (c2_database_phase_not_atomic (fun k => decide (k = 3)) (fun _ => false) []
    (Database.mk [⟨1, "root", none, Tab.my, 0⟩]
      [⟨10, "a.txt", "a.txt", "", 1, "pdf", some 1, Tab.my, 0⟩]) 1).1

/-! ### C9: blob phase is best-effort -/

theorem blobPhase_log_mem (unlinkFail : String → Bool) :
    ∀ (files : List FileRec) (fsSet : List String) (e : String),
      e ∈ (blobPhase unlinkFail fsSet files).2 →
        ∃ p ∈ fsSet, e = "unlink-error:" ++ p ∨ e = "unlinked:" ++ p := by
  intro files
  induction files with
  | nil => intro fsSet e he; simp [blobPhase] at he
  | cons fi rest ih =>
    intro fsSet e he
    by_cases hin : fi.file_path ∈ fsSet
    · by_cases hf : unlinkFail fi.file_path
      · rw [blobPhase, if_pos hin, if_pos hf] at he
        rcases List.mem_cons.mp he with h | h
        · exact ⟨fi.file_path, hin, Or.inl h⟩
        · exact ih fsSet e h
      · rw [blobPhase, if_pos hin, if_neg hf] at he
        rcases List.mem_cons.mp he with h | h
        · exact ⟨fi.file_path, hin, Or.inr h⟩
        · obtain ⟨p, hp, hor⟩ := ih (fsSet.erase fi.file_path) e h
          exact ⟨p, List.mem_of_mem_erase hp, hor⟩
    · rw [blobPhase, if_neg hin] at he
      exact ih fsSet e he

/-- C9 counterexample: folder 1 owns a file whose blob path "p" is absent
from the filesystem.  The cascade does proceed (200, database rows deleted),
but nothing at all is written to the log for the missing blob — the
`if (fs.existsSync(...))` guard skips it silently, so the claim's "the
missing blob is logged" is false. -/
theorem c9_counterexample_missing_blob_unlogged :
    (cascadeDelete [] (Database.mk [⟨1, "root", none, Tab.my, 0⟩]
        [⟨10, "a.txt", "a.txt", "p", 1, "pdf", some 1, Tab.my, 0⟩]) 1)
      = ⟨none, [], [], Database.mk [] [], 1⟩ := by
  decide

/-- C9 amended: the blob phase is best-effort and fully decoupled from the
database phase: whatever the filesystem contents and whatever unlink
failures occur, the route raises no error and the database outcome
(rows and `deletedRows`) is exactly that of the happy path; a blob that is
absent from the filesystem is skipped silently — every log line comes from
a blob that was present (only unlink attempts are logged). -/
theorem c9_blob_phase_best_effort (unlinkFail : String → Bool) (fsSet : List String)
    (dbv : Database) (target : Nat) :
    ((deleteFolderRoute (fun _ => false) unlinkFail fsSet dbv target).error = none) ∧
      ((deleteFolderRoute (fun _ => false) unlinkFail fsSet dbv target).db
        = (cascadeDelete [] dbv target).db) ∧
      ((deleteFolderRoute (fun _ => false) unlinkFail fsSet dbv target).deletedRows
        = (cascadeDelete [] dbv target).deletedRows) ∧
      (∀ e ∈ (deleteFolderRoute (fun _ => false) unlinkFail fsSet dbv target).log,
        ∃ p ∈ fsSet, e = "unlink-error:" ++ p ∨ e = "unlinked:" ++ p) := by
  refine ⟨rfl, rfl, rfl, ?_⟩
  intro e he
  exact blobPhase_log_mem unlinkFail (collectedFiles dbv target) fsSet e he

theorem c9_blob_phase_best_effort_witness :
    (deleteFolderRoute (fun _ => false) (fun _ => true) ["q"]
        (Database.mk [⟨1, "root", none, Tab.my, 0⟩]
          [⟨10, "a.txt", "a.txt", "p", 1, "pdf", some 1, Tab.my, 0⟩]) 1).error = none :=
  (c9_blob_phase_best_effort (fun _ => true) ["q"]
    (Database.mk [⟨1, "root", none, Tab.my, 0⟩]
      [⟨10, "a.txt", "a.txt", "p", 1, "pdf", some 1, Tab.my, 0⟩]) 1).1

/-! ### C6: search -/

theorem likeM_cons (c : Char) (p s : List Char) :
    likeM (c :: p) s =
      (if c = '%' then s.tails.any (fun s' => likeM p s')
      else if c = '_' then
        match s with
        | [] => false
        | _ :: s' => likeM p s'
      else
        match s with
        | [] => false
        | a :: s' => (c.toLower == a.toLower) && likeM p s') := by
  rw [likeM.eq_def]

theorem likeM_nil_percent (s : List Char) : likeM ['%'] s = true := by
  rw [likeM_cons, if_pos rfl]
  apply List.any_eq_true.mpr
  refine ⟨[], ?_, rfl⟩
  exact (List.mem_tails [] s).mpr List.nil_suffix

theorem likeM_literal_starts (t : List Char) (ht : ∀ c ∈ t, c ≠ '%' ∧ c ≠ '_') :
    ∀ s : List Char,
      (likeM (t ++ ['%']) s = true ↔ t.map Char.toLower <+: s.map Char.toLower) := by
  induction t with
  | nil =>
    intro s
    simpa using likeM_nil_percent s
  | cons c t' ih =>
    intro s
    have hc := ht c (List.mem_cons_self c t')
    have ih' := ih (fun d hd => ht d (List.mem_cons_of_mem c hd))
    rw [List.cons_append, likeM_cons, if_neg hc.1, if_neg hc.2]
    match s with
    | [] => simp
    | a :: s' =>
      simp only [List.map_cons, List.cons_prefix_cons, Bool.and_eq_true, beq_iff_eq]
      rw [ih' s']

theorem likeM_pattern_iff_containsCI (term : String)
    (hterm : ∀ c ∈ term.data, c ≠ '%' ∧ c ≠ '_') (s : String) :
    (likeM (likePattern term) s.data = true ↔ containsCI term s) := by
  rw [likePattern, likeM_cons, if_pos rfl, containsCI]
  constructor
  · intro h
    obtain ⟨s', hmem, hs'⟩ := List.any_eq_true.mp h
    have hsuf : s' <:+ s.data := (List.mem_tails s' s.data).mp hmem
    exact List.infix_iff_prefix_suffix.mpr
      ⟨s'.map Char.toLower, (likeM_literal_starts term.data hterm s').mp hs',
        hsuf.map Char.toLower⟩
  · intro h
    obtain ⟨u, hpre, husuf⟩ := List.infix_iff_prefix_suffix.mp h
    obtain ⟨l, hl, rfl⟩ := List.isSuffix_map_iff.mp husuf
    apply List.any_eq_true.mpr
    exact ⟨l, (List.mem_tails l s.data).mpr hl, (likeM_literal_starts term.data hterm l).mpr hpre⟩

/-- C6 counterexample: the search term is spliced into the pattern
`` `%${query}%` `` with no escaping, so `_` and `%` inside the term behave
as LIKE wildcards.  A file whose display and stored name are both `"x"` is
returned for the term `"_"` although `"x"` does not contain `"_"` as a
(case-insensitive) substring, refuting the claim for that term. -/
theorem c6_counterexample_wildcard_term :
    searchFiles (Database.mk [] [⟨1, "x", "x", "", 0, "", none, Tab.my, 0⟩]) Tab.my "_"
        = [⟨1, "x", "x", "", 0, "", none, Tab.my, 0⟩] ∧
      ¬ containsCI "_" "x" := by
  constructor
  · rfl
  · intro h
    rcases h with ⟨pre, suf, heq⟩
    simp only [containsCI] at heq
    have : pre ++ '_' :: suf = ['x'] := by simpa using heq
    rcases pre with _ | ⟨p, pre'⟩
    · simp at this
    · rcases pre' with _ | _ <;> simp at this

/-- C6 amended: every row `searchFiles(ns, t)` returns is in namespace `ns`
and has a display or stored name matching the SQL pattern `%t%`; the rows
come newest-first by `created_at`, and at most 50 are returned.  When the
term contains neither LIKE wildcard (`%`, `_`) — the only case the spec
sentence contemplates — pattern match is exactly case-insensitive substring
containment, so each returned row's display or stored name contains `t`
case-insensitively. -/
theorem c6_searchFiles_sound (dbv : Database) (tabType : Tab) (term : String) :
    (∀ f ∈ searchFiles dbv tabType term,
      f.tab_type = tabType ∧
        (likeM (likePattern term) f.original_name.data = true ∨
          likeM (likePattern term) f.name.data = true)) ∧
      (searchFiles dbv tabType term).Pairwise newerFirst ∧
      (searchFiles dbv tabType term).length ≤ 50 ∧
      ((∀ c ∈ term.data, c ≠ '%' ∧ c ≠ '_') →
        ∀ f ∈ searchFiles dbv tabType term,
          containsCI term f.original_name ∨ containsCI term f.name) := by
  have hmem : ∀ f ∈ searchFiles dbv tabType term,
      f.tab_type = tabType ∧
        (likeM (likePattern term) f.original_name.data = true ∨
          likeM (likePattern term) f.name.data = true) := by
    intro f hf
    have hf' : f ∈ List.insertionSort newerFirst (dbv.files.filter (fun fi =>
        decide (fi.tab_type = tabType) &&
          (likeM (likePattern term) fi.original_name.data ||
            likeM (likePattern term) fi.name.data))) := List.mem_of_mem_take hf
    have hfil := (List.mem_insertionSort newerFirst).mp hf'
    have hp := List.of_mem_filter hfil
    simp only [Bool.and_eq_true, Bool.or_eq_true, decide_eq_true_eq] at hp
    exact hp
  refine ⟨hmem, ?_, ?_, ?_⟩
  · exact ((List.sorted_insertionSort newerFirst _).sublist (List.take_sublist _ _))
  · exact List.length_take_le _ _
  · intro hterm f hf
    rcases (hmem f hf).2 with h | h
    · exact Or.inl ((likeM_pattern_iff_containsCI term hterm _).mp h)
    · exact Or.inr ((likeM_pattern_iff_containsCI term hterm _).mp h)

theorem c6_searchFiles_sound_witness :
    ∀ f ∈ searchFiles (Database.mk [] [⟨1, "Report.pdf", "Report.pdf", "", 0, "",
        none, Tab.my, 3⟩]) Tab.my "report",
      f.tab_type = Tab.my ∧
        (likeM (likePattern "report") f.original_name.data = true ∨
          likeM (likePattern "report") f.name.data = true) :=
  (c6_searchFiles_sound (Database.mk [] [⟨1, "Report.pdf", "Report.pdf", "", 0, "",
    none, Tab.my, 3⟩]) Tab.my "report").1

/-! ### C7/C8: Tree Builder round-trip machinery

`collect` is the flattening of `buildTree` computed directly; `ChainTo`
witnesses a parent-edge path, and `climbP` climbs parent links
deterministically, which pins every record to a unique position in the
forest when ids are unique and ranks decrease upward. -/

def collect (items : List Folder) : Nat → Option Nat → List Folder
  | 0, _ => []
  | fuel + 1, parentId =>
    (items.filter (fun i => decide (i.parent_id = parentId))).flatMap
      (fun c => c :: collect items fuel (some c.id))

def lookupId (items : List Folder) (p : Nat) : Option Folder :=
  items.find? (fun y => decide (y.id = p))

def climbP (items : List Folder) (x : Folder) : Nat → Option (Option Nat)
  | 0 => some (some x.id)
  | n + 1 =>
    match climbP items x n with
    | some (some p) =>
      match lookupId items p with
      | some y => some y.parent_id
      | none => none
    | _ => none

/-- `ChainTo items pid x n` says: starting from position `pid`, following
`n` parent→child edges through records of `items` lands on the record `x`
(`n = 0` meaning `pid` is `x`'s own slot `some x.id`). -/
inductive ChainTo (items : List Folder) : Option Nat → Folder → Nat → Prop where
  | zero (x : Folder) (hx : x ∈ items) : ChainTo items (some x.id) x 0
  | succ (c : Folder) (x : Folder) (n : Nat) (hc : c ∈ items)
      (hsub : ChainTo items (some c.id) x n) : ChainTo items c.parent_id x (n + 1)

theorem flatten_buildTree (items : List Folder) :
    ∀ (fuel : Nat) (pid : Option Nat),
      flattenForest (buildTree items fuel pid) = collect items fuel pid := by
  intro fuel
  induction fuel with
  | zero => intro pid; rfl
  | succ f ih =>
    intro pid
    show flattenForest ((items.filter (fun i => decide (i.parent_id = pid))).map
        (fun i => FolderTree.node i (buildTree items f (some i.id))))
      = (items.filter (fun i => decide (i.parent_id = pid))).flatMap
          (fun c => c :: collect items f (some c.id))
    generalize items.filter (fun i => decide (i.parent_id = pid)) = l
    induction l with
    | nil => rfl
    | cons a t iht =>
      show flattenTree (FolderTree.node a (buildTree items f (some a.id)))
          ++ flattenForest (t.map (fun i => FolderTree.node i (buildTree items f (some i.id))))
        = (a :: collect items f (some a.id))
          ++ t.flatMap (fun c => c :: collect items f (some c.id))
      rw [flattenTree, ih (some a.id), iht]

theorem chainTo_mem {items : List Folder} {pid : Option Nat} {x : Folder} {n : Nat}
    (h : ChainTo items pid x n) : x ∈ items := by
  induction h with
  | zero x hx => exact hx
  | succ c x n hc hsub ih => exact ih

theorem id_inj_of_nodup {items : List Folder} (hnodup : (items.map (·.id)).Nodup)
    {a b : Folder} (ha : a ∈ items) (hb : b ∈ items) (hab : a.id = b.id) : a = b :=
  List.inj_on_of_nodup_map hnodup ha hb hab

theorem lookupId_eq_self {items : List Folder} (hnodup : (items.map (·.id)).Nodup)
    {c : Folder} (hc : c ∈ items) : lookupId items c.id = some c := by
  induction items with
  | nil => cases hc
  | cons a t ih =>
    rw [lookupId, List.find?_cons]
    have hnodup' : (t.map (·.id)).Nodup := (List.nodup_cons.mp hnodup).2
    by_cases hac : a.id = c.id
    · have hca : a = c := by
        rcases List.mem_cons.mp hc with h | h
        · exact h.symm
        · exfalso
          have hmem : a.id ∈ t.map (·.id) := by
            rw [hac]
            exact List.mem_map.mpr ⟨c, h, rfl⟩
          exact (List.nodup_cons.mp hnodup).1 hmem
      rw [hca]
      simp
    · have hct : c ∈ t := by
        rcases List.mem_cons.mp hc with h | h
        · exact absurd (congrArg (fun z => z.id) h.symm) hac
        · exact h
      have : (decide (a.id = c.id)) = false := by simpa using hac
      rw [this]
      exact ih hnodup' hct

theorem chainTo_climbP {items : List Folder} (hnodup : (items.map (·.id)).Nodup) :
    ∀ {pid : Option Nat} {x : Folder} {n : Nat},
      ChainTo items pid x n → climbP items x n = some pid := by
  intro pid x n h
  induction h with
  | zero x hx => rfl
  | succ c x n hc hsub ih =>
    rw [climbP, ih]
    show (match lookupId items c.id with
      | some y => some y.parent_id
      | none => none) = some c.parent_id
    rw [lookupId_eq_self hnodup hc]

theorem climbP_step_back {items : List Folder} (rank : Nat → Nat)
    (hrank : ∀ x ∈ items, ∀ p, x.parent_id = some p → rank p < rank x.id)
    (x : Folder) (j b : Nat) (h : climbP items x (j + 1) = some (some b)) :
    ∃ a, climbP items x j = some (some a) ∧ rank b < rank a := by
  rw [climbP] at h
  split at h
  · rename_i p heq
    split at h
    · rename_i y hly
      have hpar : y.parent_id = some b := by simpa using h
      have hy_mem : y ∈ items := List.mem_of_find?_eq_some hly
      have hy_id : y.id = p := by simpa using List.find?_some hly
      refine ⟨p, heq, ?_⟩
      have := hrank y hy_mem b hpar
      rwa [hy_id] at this
    · simp at h
  · simp at h

theorem climbP_descent {items : List Folder} (rank : Nat → Nat)
    (hrank : ∀ x ∈ items, ∀ p, x.parent_id = some p → rank p < rank x.id)
    (x : Folder) :
    ∀ (k j b : Nat), climbP items x (j + (k + 1)) = some (some b) →
      ∃ a, climbP items x j = some (some a) ∧ rank b < rank a := by
  intro k
  induction k with
  | zero =>
    intro j b h
    exact climbP_step_back rank hrank x j b h
  | succ k ih =>
    intro j b h
    have h' : climbP items x ((j + 1) + (k + 1)) = some (some b) := by
      have he : j + (k + 1 + 1) = (j + 1) + (k + 1) := by omega
      rw [he] at h
      exact h
    obtain ⟨a', ha', hra'⟩ := ih (j + 1) b h'
    obtain ⟨a, ha, hra⟩ := climbP_step_back rank hrank x j a' ha'
    exact ⟨a, ha, hra'.trans hra⟩

theorem chain_self_false {items : List Folder} (hnodup : (items.map (·.id)).Nodup)
    (rank : Nat → Nat)
    (hrank : ∀ x ∈ items, ∀ p, x.parent_id = some p → rank p < rank x.id)
    {c : Folder} {n : Nat} (h : ChainTo items (some c.id) c (n + 1)) : False := by
  have h1 : climbP items c (n + 1) = some (some c.id) := chainTo_climbP hnodup h
  have h1' : climbP items c (0 + (n + 1)) = some (some c.id) := by
    rw [Nat.zero_add]
    exact h1
  obtain ⟨a, ha, hlt⟩ := climbP_descent rank hrank c n 0 c.id h1'
  have h0 : climbP items c 0 = some (some c.id) := rfl
  rw [h0] at ha
  have : c.id = a := by
    injection ha with ha'
    injection ha'
  rw [← this] at hlt
  omega

theorem chains_same_parent_lt_false {items : List Folder}
    (hnodup : (items.map (·.id)).Nodup) (rank : Nat → Nat)
    (hrank : ∀ x ∈ items, ∀ p, x.parent_id = some p → rank p < rank x.id)
    {c c' : Folder} (hc : c ∈ items) (hc' : c' ∈ items)
    (hpp : c.parent_id = c'.parent_id) {x : Folder} {n m : Nat}
    (h1 : ChainTo items (some c.id) x n) (h2 : ChainTo items (some c'.id) x m)
    (hlt : n < m) : False := by
  have e1 : climbP items x n = some (some c.id) := chainTo_climbP hnodup h1
  have e2 : climbP items x m = some (some c'.id) := chainTo_climbP hnodup h2
  have estep : climbP items x (n + 1) = some c.parent_id := by
    rw [climbP, e1]
    show (match lookupId items c.id with
      | some y => some y.parent_id
      | none => none) = some c.parent_id
    rw [lookupId_eq_self hnodup hc]
  have hq := hrank c' hc'
  rcases hp : c.parent_id with _ | q
  · rcases Nat.lt_or_ge (n + 1) m with hm | hm
    · obtain ⟨k, hk⟩ : ∃ k, m = (n + 1) + (k + 1) := ⟨m - n - 2, by omega⟩
      obtain ⟨a, ha, _⟩ := climbP_descent rank hrank x k (n + 1) c'.id (by rw [← hk]; exact e2)
      rw [estep, hp] at ha
      injection ha with ha'
      cases ha'
    · have hm' : m = n + 1 := by omega
      rw [hm', estep, hp] at e2
      injection e2 with e2'
      cases e2'
  · have hq' : rank q < rank c'.id := hq q (by rw [← hpp]; exact hp)
    rcases Nat.lt_or_ge (n + 1) m with hm | hm
    · obtain ⟨k, hk⟩ : ∃ k, m = (n + 1) + (k + 1) := ⟨m - n - 2, by omega⟩
      obtain ⟨a, ha, hlt2⟩ := climbP_descent rank hrank x k (n + 1) c'.id (by rw [← hk]; exact e2)
      rw [estep, hp] at ha
      have haq : q = a := by
        injection ha with ha'
        injection ha'
      rw [← haq] at hlt2
      omega
    · have hm' : m = n + 1 := by omega
      rw [hm', estep, hp] at e2
      have hqc : q = c'.id := by
        injection e2 with e2'
        injection e2'
      rw [hqc] at hq'
      omega

theorem chains_same_parent_eq {items : List Folder}
    (hnodup : (items.map (·.id)).Nodup) (rank : Nat → Nat)
    (hrank : ∀ x ∈ items, ∀ p, x.parent_id = some p → rank p < rank x.id)
    {c c' : Folder} (hc : c ∈ items) (hc' : c' ∈ items)
    (hpp : c.parent_id = c'.parent_id) {x : Folder} {n m : Nat}
    (h1 : ChainTo items (some c.id) x n) (h2 : ChainTo items (some c'.id) x m) :
    c = c' := by
  rcases Nat.lt_trichotomy n m with h | h | h
  · exact absurd (chains_same_parent_lt_false hnodup rank hrank hc hc' hpp h1 h2 h) id
  · subst h
    have e1 : climbP items x n = some (some c.id) := chainTo_climbP hnodup h1
    have e2 : climbP items x n = some (some c'.id) := chainTo_climbP hnodup h2
    rw [e1] at e2
    have : c.id = c'.id := by
      injection e2 with e2'
      injection e2'
    exact id_inj_of_nodup hnodup hc hc' this
  · exact absurd (chains_same_parent_lt_false hnodup rank hrank hc' hc hpp.symm h2 h1 h) id

theorem chainTo_zero_inv {items : List Folder} {q : Option Nat} {x : Folder}
    (h : ChainTo items q x 0) : x ∈ items ∧ q = some x.id := by
  cases h with
  | zero x hx => exact ⟨hx, rfl⟩

theorem chain_of_mem_collect {items : List Folder} :
    ∀ (fuel : Nat) (pid : Option Nat) (x : Folder),
      x ∈ collect items fuel pid →
        ∃ n, n + 1 ≤ fuel ∧ ChainTo items pid x (n + 1) := by
  intro fuel
  induction fuel with
  | zero =>
    intro pid x hx
    cases hx
  | succ f ih =>
    intro pid x hx
    rw [collect] at hx
    obtain ⟨c, hcfil, hmem⟩ := List.mem_flatMap.mp hx
    have hcid := List.mem_filter.mp hcfil
    have hcpar : c.parent_id = pid := by simpa using hcid.2
    rcases List.mem_cons.mp hmem with rfl | hsub
    · refine ⟨0, Nat.succ_le_succ (Nat.zero_le f), ?_⟩
      have := ChainTo.succ x x 0 hcid.1 (ChainTo.zero x hcid.1)
      rwa [hcpar] at this
    · obtain ⟨n, hn, hchain⟩ := ih (some c.id) x hsub
      refine ⟨n + 1, by omega, ?_⟩
      have := ChainTo.succ c x (n + 1) hcid.1 hchain
      rwa [hcpar] at this

theorem mem_collect_of_chain {items : List Folder}
    (hnodup : (items.map (·.id)).Nodup) :
    ∀ (fuel n : Nat) (pid : Option Nat) (x : Folder),
      n + 1 ≤ fuel → ChainTo items pid x (n + 1) → x ∈ collect items fuel pid := by
  intro fuel
  induction fuel with
  | zero =>
    intro n pid x hle
    omega
  | succ f ih =>
    intro n pid x hle hchain
    rw [collect]
    cases hchain with
    | succ c x n hc hsub =>
      match n, hsub with
      | 0, hsub =>
        obtain ⟨hxmem, hcid⟩ := chainTo_zero_inv hsub
        have hcx : c = x := id_inj_of_nodup hnodup hc hxmem (by injection hcid)
        subst hcx
        exact List.mem_flatMap.mpr
          ⟨c, List.mem_filter.mpr ⟨hc, by simp⟩, List.mem_cons_self c _⟩
      | k + 1, hsub =>
        have hx : x ∈ collect items f (some c.id) :=
          ih k (some c.id) x (by omega) hsub
        exact List.mem_flatMap.mpr
          ⟨c, List.mem_filter.mpr ⟨hc, by simp⟩, List.mem_cons_of_mem _ hx⟩

theorem chain_of_block {items : List Folder} {c x : Folder} {f : Nat}
    (hc : c ∈ items) (hx : x ∈ c :: collect items f (some c.id)) :
    ∃ n, ChainTo items (some c.id) x n := by
  rcases List.mem_cons.mp hx with rfl | h
  · exact ⟨0, ChainTo.zero x hc⟩
  · obtain ⟨n, _, hchain⟩ := chain_of_mem_collect f (some c.id) x h
    exact ⟨n + 1, hchain⟩

theorem nodup_collect {items : List Folder} (hnodup : (items.map (·.id)).Nodup)
    (rank : Nat → Nat)
    (hrank : ∀ x ∈ items, ∀ p, x.parent_id = some p → rank p < rank x.id) :
    ∀ (fuel : Nat) (pid : Option Nat), (collect items fuel pid).Nodup := by
  intro fuel
  induction fuel with
  | zero =>
    intro pid
    exact List.nodup_nil
  | succ f ih =>
    intro pid
    rw [collect]
    apply List.nodup_flatMap.mpr
    constructor
    · intro c hcfil
      apply List.nodup_cons.mpr
      refine ⟨?_, ih (some c.id)⟩
      intro hmem
      obtain ⟨n, _, hchain⟩ := chain_of_mem_collect f (some c.id) c hmem
      exact chain_self_false hnodup rank hrank hchain
    · have hfilnd : (items.filter (fun i => decide (i.parent_id = pid))).Nodup :=
        (hnodup.of_map _).filter _
      apply List.Pairwise.imp_of_mem ?_ hfilnd
      intro a b ha hb hne
      have hamem := List.mem_filter.mp ha
      have hbmem := List.mem_filter.mp hb
      have hapar : a.parent_id = pid := by simpa using hamem.2
      have hbpar : b.parent_id = pid := by simpa using hbmem.2
      show List.Disjoint (a :: collect items f (some a.id)) (b :: collect items f (some b.id))
      apply List.disjoint_left.mpr
      intro x hxa hxb
      obtain ⟨n, hcha⟩ := chain_of_block hamem.1 hxa
      obtain ⟨m, hchb⟩ := chain_of_block hbmem.1 hxb
      exact hne (chains_same_parent_eq hnodup rank hrank hamem.1 hbmem.1
        (hapar.trans hbpar.symm) hcha hchb)

theorem chainTo_extend {items : List Folder} :
    ∀ {pid : Option Nat} {y : Folder} {m : Nat}, ChainTo items pid y m →
      ∀ {x : Folder}, x ∈ items → x.parent_id = some y.id →
        ChainTo items pid x (m + 1) := by
  intro pid y m h
  induction h with
  | zero y hy =>
    intro x hx hpar
    have := ChainTo.succ x x 0 hx (ChainTo.zero x hx)
    rwa [hpar] at this
  | succ c y n hc hsub ih =>
    intro x hx hpar
    exact ChainTo.succ c x (n + 1) hc (ih hx hpar)

theorem length_filter_mono {α : Type} (l : List α) (p q : α → Bool)
    (h : ∀ a ∈ l, p a = true → q a = true) :
    (l.filter p).length ≤ (l.filter q).length := by
  induction l with
  | nil => simp
  | cons a t ih =>
    have iht := ih (fun b hb hp => h b (List.mem_cons_of_mem a hb) hp)
    by_cases hpa : p a = true
    · have hqa := h a (List.mem_cons_self a t) hpa
      simp only [List.filter_cons, hpa, hqa, if_true]
      simpa using Nat.succ_le_succ iht
    · cases hqa : q a
      · simp only [List.filter_cons, hqa, if_false, Bool.false_eq_true]
        rw [if_neg hpa]
        exact iht
      · simp only [List.filter_cons, hqa, if_true]
        rw [if_neg hpa]
        exact Nat.le_succ_of_le iht

theorem length_filter_strict {α : Type} (l : List α) (p q : α → Bool)
    (h : ∀ a ∈ l, p a = true → q a = true) (b : α) (hb : b ∈ l)
    (hqb : q b = true) (hpb : p b = false) :
    (l.filter p).length < (l.filter q).length := by
  induction l with
  | nil => cases hb
  | cons a t ih =>
    have hmono := length_filter_mono t p q (fun c hc hp => h c (List.mem_cons_of_mem a hc) hp)
    rcases List.mem_cons.mp hb with rfl | hbt
    · simp only [List.filter_cons, hqb, if_true]
      rw [if_neg (by simp [hpb]), List.length_cons]
      omega
    · have iht := ih (fun c hc hp => h c (List.mem_cons_of_mem a hc) hp) hbt
      by_cases hpa : p a = true
      · have hqa := h a (List.mem_cons_self a t) hpa
        simp only [List.filter_cons, hpa, hqa, if_true]
        simpa using Nat.succ_lt_succ iht
      · cases hqa : q a
        · simp only [List.filter_cons, hqa, if_false, Bool.false_eq_true]
          rw [if_neg hpa]
          exact iht
        · simp only [List.filter_cons, hqa, if_true]
          rw [if_neg hpa]
          exact Nat.lt_succ_of_lt iht

theorem chain_to_root {items : List Folder} (rank : Nat → Nat)
    (hclosed : ∀ x ∈ items, ∀ p, x.parent_id = some p → p ∈ items.map (·.id))
    (hrank : ∀ x ∈ items, ∀ p, x.parent_id = some p → rank p < rank x.id) :
    ∀ x ∈ items, ∃ n, ChainTo items none x (n + 1) ∧
      n + 1 ≤ (items.filter (fun y => decide (rank y.id < rank x.id))).length + 1 := by
  have H : ∀ r, ∀ x, x ∈ items → rank x.id < r →
      ∃ n, ChainTo items none x (n + 1) ∧
        n + 1 ≤ (items.filter (fun y => decide (rank y.id < rank x.id))).length + 1 := by
    intro r
    induction r with
    | zero =>
      intro x hx h
      omega
    | succ r ih =>
      intro x hx hlt
      rcases hpar : x.parent_id with _ | p
      · refine ⟨0, ?_, by omega⟩
        have := ChainTo.succ x x 0 hx (ChainTo.zero x hx)
        rwa [hpar] at this
      · obtain ⟨y, hy, hyid⟩ := List.mem_map.mp (hclosed x hx p hpar)
        have hrp : rank p < rank x.id := hrank x hx p hpar
        have hylt : rank y.id < r := by
          rw [hyid]
          omega
        obtain ⟨m, hchain, hbound⟩ := ih y hy hylt
        refine ⟨m + 1, ?_, ?_⟩
        · exact chainTo_extend hchain hx (by rw [hpar, hyid])
        · have hstrict := length_filter_strict items
            (fun z => decide (rank z.id < rank y.id))
            (fun z => decide (rank z.id < rank x.id))
            (fun a _ hp => by
              simp only [decide_eq_true_eq] at hp ⊢
              have : rank y.id < rank x.id := by rw [hyid]; exact hrp
              omega)
            y hy
            (by simp only [decide_eq_true_eq]; rw [hyid]; exact hrp)
            (by simp)
          omega
  intro x hx
  exact H (rank x.id + 1) x hx (Nat.lt_succ_self _)

/-- C7: the Tree Builder round-trips.  For any list of folder records with
unique ids whose non-null parents all resolve within the list and whose
parent edges are acyclic (witnessed by a rank function that strictly
decreases from child to parent), flattening the forest `buildTree` produces
yields exactly the input records — a permutation of the input list, so the
round-trip loses nothing, duplicates nothing, and invents nothing. -/
theorem c7_treeBuilder_roundtrip (items : List Folder) (rank : Nat → Nat)
    (hnodup : (items.map (·.id)).Nodup)
    (hclosed : ∀ x ∈ items, ∀ p, x.parent_id = some p → p ∈ items.map (·.id))
    (hrank : ∀ x ∈ items, ∀ p, x.parent_id = some p → rank p < rank x.id) :
    (flattenForest (buildTreeTop items)).Perm items := by
  rw [buildTreeTop, flatten_buildTree]
  apply (List.perm_ext_iff_of_nodup
    (nodup_collect hnodup rank hrank (items.length + 1) none) (hnodup.of_map _)).mpr
  intro x
  constructor
  · intro hx
    obtain ⟨n, _, hchain⟩ := chain_of_mem_collect (items.length + 1) none x hx
    exact chainTo_mem hchain
  · intro hx
    obtain ⟨n, hchain, hbound⟩ := chain_to_root rank hclosed hrank x hx
    apply mem_collect_of_chain hnodup (items.length + 1) n none x ?_ hchain
    have := List.length_filter_le (fun y => decide (rank y.id < rank x.id)) items
    omega

theorem c7_treeBuilder_roundtrip_witness :
    (flattenForest (buildTreeTop
        [⟨1, "a", none, Tab.my, 0⟩, ⟨2, "b", some 1, Tab.my, 0⟩,
          ⟨3, "c", some 1, Tab.my, 0⟩])).Perm
      [⟨1, "a", none, Tab.my, 0⟩, ⟨2, "b", some 1, Tab.my, 0⟩,
        ⟨3, "c", some 1, Tab.my, 0⟩] :=
  c7_treeBuilder_roundtrip _ (fun n => n) (by decide)
    (by
      intro x hx p hp
      fin_cases hx <;> simp_all)
    (by
      intro x hx p hp
      fin_cases hx <;> simp_all <;> omega)

theorem mem_collect_parent_shape {items : List Folder} :
    ∀ (fuel : Nat) (pid : Option Nat) (x : Folder), x ∈ collect items fuel pid →
      x.parent_id = pid ∨ ∃ y ∈ items, x.parent_id = some y.id := by
  intro fuel
  induction fuel with
  | zero =>
    intro pid x hx
    cases hx
  | succ f ih =>
    intro pid x hx
    rw [collect] at hx
    obtain ⟨c, hcfil, hmem⟩ := List.mem_flatMap.mp hx
    have hcid := List.mem_filter.mp hcfil
    rcases List.mem_cons.mp hmem with rfl | hsub
    · exact Or.inl (by simpa using hcid.2)
    · rcases ih (some c.id) x hsub with h | h
      · exact Or.inr ⟨c, hcid.1, h⟩
      · exact Or.inr h

theorem forestSorted_map_nodes (g : Folder → List FolderTree) :
    ∀ (l : List Folder), l.Pairwise (fun a b => a.name ≤ b.name) →
      (∀ c ∈ l, forestSorted (g c)) →
      forestSorted (l.map (fun c => FolderTree.node c (g c))) := by
  intro l
  induction l with
  | nil =>
    intro _ _
    exact trivial
  | cons a t ih =>
    intro hp hts
    rw [List.map_cons]
    refine ⟨?_, ?_, ?_⟩
    · show forestSorted (g a)
      exact hts a (List.mem_cons_self a t)
    · intro u hu
      obtain ⟨b, hb, rfl⟩ := List.mem_map.mp hu
      show a.name ≤ b.name
      exact (List.pairwise_cons.mp hp).1 b hb
    · exact ih (List.pairwise_cons.mp hp).2 (fun c hc => hts c (List.mem_cons_of_mem a hc))

theorem forestSorted_buildTree {items : List Folder}
    (hsort : items.Pairwise (fun a b => a.parent_id = b.parent_id → a.name ≤ b.name)) :
    ∀ (fuel : Nat) (pid : Option Nat), forestSorted (buildTree items fuel pid) := by
  intro fuel
  induction fuel with
  | zero =>
    intro pid
    exact trivial
  | succ f ih =>
    intro pid
    have hfil : (items.filter (fun i => decide (i.parent_id = pid))).Pairwise
        (fun a b => a.name ≤ b.name) := by
      have h1 : (items.filter (fun i => decide (i.parent_id = pid))).Pairwise
          (fun a b => a.parent_id = b.parent_id → a.name ≤ b.name) :=
        List.Pairwise.sublist (List.filter_sublist items) hsort
      apply List.Pairwise.imp_of_mem ?_ h1
      intro a b ha hb hab
      have hap : a.parent_id = pid := by simpa using (List.mem_filter.mp ha).2
      have hbp : b.parent_id = pid := by simpa using (List.mem_filter.mp hb).2
      exact hab (hap.trans hbp.symm)
    exact forestSorted_map_nodes (fun i => buildTree items f (some i.id)) _ hfil
      (fun c _ => ih (some c.id))

/-- C8: edge behavior of the Tree Builder as the route uses it: an empty
input yields an empty forest; a folder whose declared non-null parent id is
absent from the input set is silently dropped — it never appears anywhere
in the output forest; and, because the route feeds `buildTree` the rows of
`ORDER BY parent_id ASC, name ASC` and `filter` preserves order, the
children at every level of the output (and the roots) are ordered by name. -/
theorem c8_treeBuilder_edge_cases :
    (buildTreeTop ([] : List Folder) = []) ∧
      (∀ (items : List Folder) (o : Folder) (q : Nat), o.parent_id = some q →
        q ∉ items.map (·.id) → o ∉ flattenForest (buildTreeTop items)) ∧
      (∀ (dbv : Database) (tabType : Tab), forestSorted (listFoldersTree dbv tabType)) := by
  refine ⟨rfl, ?_, ?_⟩
  · intro items o q hq hnot hmem
    rw [buildTreeTop, flatten_buildTree] at hmem
    rcases mem_collect_parent_shape _ _ _ hmem with h | ⟨y, hy, hpy⟩
    · rw [hq] at h
      cases h
    · rw [hq] at hpy
      have hqy : q = y.id := by injection hpy
      exact hnot (hqy ▸ List.mem_map.mpr ⟨y, hy, rfl⟩)
  · intro dbv tabType
    rw [listFoldersTree, buildTreeTop]
    apply forestSorted_buildTree
    rw [listFolderRows]
    have hs := List.sorted_insertionSort folderOrder
      (dbv.folders.filter (fun fo => decide (fo.tab_type = tabType)))
    apply List.Pairwise.imp ?_ hs
    intro a b hab
    intro hpp
    rcases hab with h | ⟨_, hn⟩
    · exfalso
      rw [congrArg parentKey hpp] at h
      omega
    · exact hn

theorem c8_treeBuilder_edge_cases_witness :
    (buildTreeTop ([] : List Folder) = []) ∧
      ((⟨5, "o", some 9, Tab.my, 0⟩ : Folder)
        ∉ flattenForest (buildTreeTop [⟨1, "a", none, Tab.my, 0⟩])) ∧
      forestSorted (listFoldersTree (Database.mk [⟨1, "a", none, Tab.my, 0⟩] []) Tab.my) :=
  ⟨c8_treeBuilder_edge_cases.1,
    c8_treeBuilder_edge_cases.2.1 [⟨1, "a", none, Tab.my, 0⟩] ⟨5, "o", some 9, Tab.my, 0⟩ 9
      rfl (by decide),
    c8_treeBuilder_edge_cases.2.2 (Database.mk [⟨1, "a", none, Tab.my, 0⟩] []) Tab.my⟩
